import Mathlib

/-!
Shallow embedding of the twine-solana-sdk account-state and state-commitment
core: the `Account` / `AccountSharedData` value types (`src/account.rs`), the
per-account blake3 digest (`src/account/accounts_db.rs`), the Merkle-root
accumulator (`src/account/account_hasher.rs`) and the lamports error type
(`src/lamports.rs`).

Bytes are modelled as `Nat` values (< 256 where the source guarantees it),
byte buffers as `List Nat`, and the external cryptographic hash functions
(blake3, and the sha256-based `Hasher` of the missing `src/hash.rs`) as
explicit function parameters `List Nat → Hash` over the concatenated byte
stream fed to them, which is exactly the incremental-update contract the
source relies on.
-/

namespace Twine

/-- Little-endian byte encoding of a `u64` value (`u64::to_le_bytes`). -/
def u64LeBytes (x : Nat) : List Nat :=
  (List.range 8).map fun i => x / 256 ^ i % 256

/-- `Pubkey` (`src/pubkey.rs`): a 32-byte identifier; `bytes` is what
`as_ref()` exposes. -/
structure Pubkey where
  bytes : List Nat
deriving DecidableEq, Repr

/-- The source's `Pubkey` is `[u8; 32]`: exactly 32 bytes. -/
def Pubkey.wf (p : Pubkey) : Prop := p.bytes.length = 32

instance (p : Pubkey) : Decidable p.wf := by
  unfold Pubkey.wf; infer_instance

/-- Modelled from the spec: the generic hash type of the repository's
`src/hash.rs` (absent from the sources) is a fixed-size digest; we model a
digest value as its byte list. -/
abbrev Hash := List Nat

/-- Modelled from the spec: `Hash::default()`, the all-zero digest. -/
def defaultHash : Hash := List.replicate 32 0

/-- `AccountHash` (`src/account/account_hasher.rs`): newtype around `Hash`. -/
structure AccountHash where
  hash : Hash
deriving DecidableEq, Repr

/-- `Account` (`src/account.rs`): the fully-owned record. -/
structure Account where
  lamports : Nat
  data : List Nat
  owner : Pubkey
  executable : Bool
  rent_epoch : Nat
deriving DecidableEq, Repr

/-- `BUF_SIZE` in `hash_account_data`: the stack scratch-buffer size. -/
def BUF_SIZE : Nat := 128

/-- `TOTAL_FIELD_SIZE` in `hash_account_data`:
8 (lamports) + 8 (slot) + 8 (rent_epoch) + 1 (exec flag) + 32 (owner) + 32 (pubkey). -/
def TOTAL_FIELD_SIZE : Nat := 8 + 8 + 8 + 1 + 32 + 32

/-- `DATA_SIZE_CAN_FIT` in `hash_account_data`. -/
def DATA_SIZE_CAN_FIT : Nat := BUF_SIZE - TOTAL_FIELD_SIZE

/-- `hash_account_data` (`src/account/accounts_db.rs`). The blake3 hasher is
modelled by the list of bytes fed to it via `update` calls (`fed`), finalized
by the abstract stream-hash function `blake3`; the `SmallVec` scratch buffer
is `buffer`. -/
def hash_account_data (blake3 : List Nat → Hash) (lamports : Nat) (owner : Pubkey)
    (executable : Bool) (rent_epoch : Nat) (data : List Nat) (pubkey : Pubkey) :
    AccountHash :=
  if lamports = 0 then
    ⟨defaultHash⟩
  else
    let buffer : List Nat := []
    let buffer := buffer ++ u64LeBytes lamports
    let buffer := buffer ++ u64LeBytes rent_epoch
    let fed : List Nat := []
    let state :=
      if data.length > DATA_SIZE_CAN_FIT then
        -- hasher.update(&buffer); buffer.clear(); hasher.update(data)
        (fed ++ buffer ++ data, ([] : List Nat))
      else
        -- buffer.extend_from_slice(data)
        (fed, buffer ++ data)
    let fed := state.1
    let buffer := state.2
    let buffer := buffer ++ [if executable then 1 else 0]
    let buffer := buffer ++ owner.bytes
    let buffer := buffer ++ pubkey.bytes
    let fed := fed ++ buffer
    ⟨blake3 fed⟩

/-- `hash_account` (`src/account/accounts_db.rs`), reading the account through
its `ReadableAccount` accessors. -/
def hash_account (blake3 : List Nat → Hash) (account : Account) (pubkey : Pubkey) :
    AccountHash :=
  hash_account_data blake3 account.lamports account.owner account.executable
    account.rent_epoch account.data pubkey

end Twine

namespace Twine

/-- C1: for lamports ≠ 0, `hash_account` is the blake3 digest of exactly
lamports(LE8) ‖ rent_epoch(LE8) ‖ data ‖ exec-flag byte ‖ owner(32) ‖
address(32), on both the single-buffer and the streamed path. -/
theorem hash_account_stream (blake3 : List Nat → Hash) (a : Account) (addr : Pubkey)
    (hl : a.lamports ≠ 0) (ho : a.owner.wf) (ha : addr.wf) :
    hash_account blake3 a addr =
      ⟨blake3 (u64LeBytes a.lamports ++ u64LeBytes a.rent_epoch ++ a.data ++
        [if a.executable then 1 else 0] ++ a.owner.bytes ++ addr.bytes)⟩ := by
  unfold hash_account hash_account_data
  by_cases hd : a.data.length > DATA_SIZE_CAN_FIT <;>
    simp [hl, hd, List.append_assoc]

/-- Concrete instances of `hash_account_stream`: one account on the
single-buffer path (empty data) and one on the streamed path (40 data
bytes > `DATA_SIZE_CAN_FIT` = 39). -/
theorem hash_account_stream_witness :
    hash_account (fun l => l)
        ⟨5000000, [], ⟨List.replicate 32 2⟩, false, 0⟩ ⟨List.replicate 32 3⟩ =
      ⟨(fun l => l) (u64LeBytes 5000000 ++ u64LeBytes 0 ++ [] ++
        [if false then 1 else 0] ++ List.replicate 32 2 ++ List.replicate 32 3)⟩ ∧
    hash_account (fun l => l)
        ⟨7, List.replicate 40 9, ⟨List.replicate 32 2⟩, true, 11⟩ ⟨List.replicate 32 3⟩ =
      ⟨(fun l => l) (u64LeBytes 7 ++ u64LeBytes 11 ++ List.replicate 40 9 ++
        [if true then 1 else 0] ++ List.replicate 32 2 ++ List.replicate 32 3)⟩ := by
  constructor
  · exact hash_account_stream (fun l => l) ⟨5000000, [], ⟨List.replicate 32 2⟩, false, 0⟩
      ⟨List.replicate 32 3⟩ (by decide) (by decide) (by decide)
  · exact hash_account_stream (fun l => l) ⟨7, List.replicate 40 9, ⟨List.replicate 32 2⟩, true, 11⟩
      ⟨List.replicate 32 3⟩ (by decide) (by decide) (by decide)

/-- C2: for lamports = 0, `hash_account` is the all-zero digest, whatever the
other fields, the payload and the address are. -/
theorem hash_account_zero_lamports (blake3 : List Nat → Hash) (a : Account)
    (addr : Pubkey) (hl : a.lamports = 0) :
    hash_account blake3 a addr = ⟨defaultHash⟩ := by
  unfold hash_account hash_account_data
  simp [hl]

/-- Concrete instance of `hash_account_zero_lamports`. -/
theorem hash_account_zero_lamports_witness :
    hash_account (fun l => 1 :: l) ⟨0, [4, 5, 6], ⟨List.replicate 32 8⟩, true, 3⟩
        ⟨List.replicate 32 1⟩ = ⟨defaultHash⟩ :=
  hash_account_zero_lamports (fun l => 1 :: l)
    ⟨0, [4, 5, 6], ⟨List.replicate 32 8⟩, true, 3⟩ ⟨List.replicate 32 1⟩ rfl

end Twine

namespace Twine

/-- `AccountsHasher::div_ceil` (`src/account/account_hasher.rs`). -/
def div_ceil (x y : Nat) : Nat :=
  let result := x / y
  if x % y ≠ 0 then result + 1 else result

/-- One level of `compute_merkle_root_loop`'s reduction: the chunked map that
produces `result`.  The external sha256-based `Hasher` of the missing
`src/hash.rs` is modelled by the abstract stream-hash `hashFn` applied to the
concatenation of the bytes fed by the `hasher.hash(h.as_ref())` calls. -/
def merkle_level (hashFn : List Nat → Hash) (hashes : List Hash) (fanout : Nat) :
    List Hash :=
  let total_hashes := hashes.length
  let chunks := div_ceil total_hashes fanout
  (List.range chunks).map fun i =>
    let start_index := i * fanout
    let end_index := min (start_index + fanout) total_hashes
    hashFn ((hashes.take end_index).drop start_index).join

/-- The `compute_merkle_root_loop` / `compute_merkle_root_recurse` recursion
(`src/account/account_hasher.rs`), made total with a fuel parameter: `none`
models non-termination of the Rust recursion (which can only happen for
`fanout < 2`).  Each step is the body of `compute_merkle_root_loop`:
empty input hashes an empty stream; otherwise one `merkle_level`, returning
`result[0]` when a single digest remains and recursing otherwise. -/
def compute_merkle_root_go (hashFn : List Nat → Hash) :
    Nat → List Hash → Nat → Option Hash
  | 0, _, _ => none
  | fuel + 1, hashes, fanout =>
    if hashes.isEmpty then some (hashFn [])
    else
      let result := merkle_level hashFn hashes fanout
      if result.length = 1 then some (result.headD defaultHash)
      else compute_merkle_root_go hashFn fuel result fanout

/-- `AccountsHasher::compute_merkle_root_loop`: the first level works on the
extracted hashes (the extractor only avoids an array copy in the source), and
`hashes.length + 1` units of fuel are enough whenever `fanout ≥ 2` (proved in
`merkle_root_terminates`). -/
def compute_merkle_root_loop {T : Type} (hashFn : List Nat → Hash) (hashes : List T)
    (fanout : Nat) (extractor : T → Hash) : Option Hash :=
  compute_merkle_root_go hashFn (hashes.length + 1) (hashes.map extractor) fanout

/-- `AccountsHasher::compute_merkle_root` (`src/account/account_hasher.rs`). -/
def compute_merkle_root (hashFn : List Nat → Hash) (hashes : List (Pubkey × Hash))
    (fanout : Nat) : Option Hash :=
  compute_merkle_root_loop hashFn hashes fanout (fun t => t.2)

/-- `MERKLE_FANOUT` (`src/account/account_hasher.rs`). -/
def MERKLE_FANOUT : Nat := 16

theorem merkle_level_length (hashFn : List Nat → Hash) (hashes : List Hash)
    (fanout : Nat) :
    (merkle_level hashFn hashes fanout).length = div_ceil hashes.length fanout := by
  simp [merkle_level]

theorem div_ceil_pos (n f : Nat) (hf : 0 < f) (hn : 0 < n) : 0 < div_ceil n f := by
  unfold div_ceil
  by_cases h : n % f = 0
  · have : f ∣ n := Nat.dvd_of_mod_eq_zero h
    have hfn : f ≤ n := Nat.le_of_dvd hn this
    simp [h]
    exact Nat.div_pos hfn hf
  · simp [h]

theorem div_ceil_lt (n f : Nat) (hf : 2 ≤ f) (hn : 2 ≤ n) : div_ceil n f < n := by
  unfold div_ceil
  have hdiv : n / f < n := Nat.div_lt_self (by omega) (by omega)
  by_cases h : n % f = 0
  · simp [h]; exact hdiv
  · simp [h]
    by_cases hnf : n < f
    · have : n / f = 0 := Nat.div_eq_of_lt hnf
      omega
    · push_neg at hnf
      have hne : n ≠ f := by
        intro he; subst he; simp [Nat.mod_self] at h
      have h3 : 3 ≤ n := by
        rcases Nat.lt_or_ge n 3 with h' | h'
        · interval_cases n <;> omega
        · exact h'
      have h2 : n / f ≤ n / 2 := Nat.div_le_div_left hf (by omega)
      have h4 : n / 2 < n - 1 := by
        rw [Nat.div_lt_iff_lt_mul (by omega : 0 < 2)]
        omega
      omega

end Twine

namespace Twine

theorem compute_merkle_root_go_isSome (hashFn : List Nat → Hash) :
    ∀ (fuel : Nat) (hashes : List Hash) (fanout : Nat), 2 ≤ fanout →
      hashes ≠ [] → hashes.length ≤ fuel →
      (compute_merkle_root_go hashFn fuel hashes fanout).isSome := by
  intro fuel
  induction fuel with
  | zero =>
    intro hashes fanout _ hne hlen
    exact absurd (List.eq_nil_of_length_eq_zero (Nat.le_zero.mp hlen)) hne
  | succ n ih =>
    intro hashes fanout hf hne hlen
    rw [compute_merkle_root_go]
    have hne' : hashes.isEmpty = false := by
      simpa [List.isEmpty_iff_eq_nil] using hne
    rw [hne']
    simp only [Bool.false_eq_true, if_false]
    by_cases h1 : (merkle_level hashFn hashes fanout).length = 1
    · simp [h1]
    · simp only [h1, if_false]
      have hrl : (merkle_level hashFn hashes fanout).length =
          div_ceil hashes.length fanout := merkle_level_length hashFn hashes fanout
      have hpos : 0 < hashes.length := List.length_pos.mpr hne
      rcases Nat.lt_or_ge hashes.length 2 with h2 | h2
      · exfalso
        have hone : hashes.length = 1 := by omega
        have : div_ceil 1 fanout = 1 := by
          have hm : (1 : Nat) % fanout = 1 := Nat.mod_eq_of_lt (by omega)
          have hd : (1 : Nat) / fanout = 0 := Nat.div_eq_of_lt (by omega)
          simp [div_ceil, hm, hd]
        rw [hone, this] at hrl
        exact h1 hrl
      · have hlt : div_ceil hashes.length fanout < hashes.length :=
          div_ceil_lt _ _ hf h2
        have hrpos : 0 < div_ceil hashes.length fanout :=
          div_ceil_pos _ _ (by omega) hpos
        apply ih (merkle_level hashFn hashes fanout) fanout hf
        · intro he
          rw [he] at hrl
          simp at hrl
          omega
        · omega

/-- C8 (amended in no way, proved as stated): for every fanout ≥ 2 the
reduction terminates — each level of n > 1 items shrinks strictly to
`div_ceil n fanout` items, and the recursion (whose fuel models the Rust call
stack) ends with exactly one digest. -/
theorem merkle_root_terminates {T : Type} (hashFn : List Nat → Hash)
    (hashes : List T) (fanout : Nat) (extractor : T → Hash) (hf : 2 ≤ fanout) :
    (∃ h, compute_merkle_root_loop hashFn hashes fanout extractor = some h) ∧
    (∀ n, 1 < n → div_ceil n fanout < n) := by
  constructor
  · rw [← Option.isSome_iff_exists]
    unfold compute_merkle_root_loop
    by_cases he : hashes = []
    · subst he
      rw [compute_merkle_root_go]
      simp
    · apply compute_merkle_root_go_isSome hashFn _ _ fanout hf
      · simpa using he
      · simp
  · intro n hn
    exact div_ceil_lt n fanout hf hn

/-- Concrete instance of `merkle_root_terminates`: three leaves at fanout 2
reduce in two levels to exactly one digest. -/
theorem merkle_root_terminates_witness :
    (∃ h, compute_merkle_root_loop (fun l => l) ([[1], [2], [3]] : List Hash) 2
      (fun t => t) = some h) ∧ (∀ n, 1 < n → div_ceil n 2 < n) :=
  merkle_root_terminates (fun l => l) ([[1], [2], [3]] : List Hash) 2
    (fun t => t) (by decide)

/-- C3 as stated is false: on the one-pair list the loop still hashes the
single one-element chunk, so the root is the stream-hash of the pair's
digest, not the digest itself.  Here the pair's digest is `[5]` while the
root is `some (0 :: [5])`. -/
theorem merkle_root_singleton_counterexample :
    compute_merkle_root (fun l => 0 :: l) [(⟨List.replicate 32 0⟩, [5])] 16 ≠
      some [5] := by
  decide

/-- C3 amended: for every fanout ≥ 2 and every single (address, digest) pair,
the Merkle-root computation returns the stream-hash of that pair's digest —
the one-element level is chunk-hashed once, and the recursion stops there
(the level reduction is not invoked a second time on the singleton result). -/
theorem merkle_root_singleton (hashFn : List Nat → Hash) (p : Pubkey × Hash)
    (fanout : Nat) (hf : 2 ≤ fanout) :
    compute_merkle_root hashFn [p] fanout = some (hashFn p.2) := by
  have h1 : (1 : Nat) % fanout = 1 := Nat.mod_eq_of_lt (by omega)
  have h0 : (1 : Nat) / fanout = 0 := Nat.div_eq_of_lt (by omega)
  have hm : min fanout 1 = 1 := by omega
  have hr : List.range 1 = [0] := rfl
  simp [compute_merkle_root, compute_merkle_root_loop, compute_merkle_root_go,
    merkle_level, div_ceil, h1, h0, hm, hr]

/-- Concrete instance of `merkle_root_singleton`. -/
theorem merkle_root_singleton_witness :
    compute_merkle_root (fun l => 7 :: l) [(⟨List.replicate 32 4⟩, [9])] 16 =
      some [7, 9] :=
  merkle_root_singleton (fun l => 7 :: l) (⟨List.replicate 32 4⟩, [9]) 16
    (by decide)

end Twine

namespace Twine

/-- One `Vec<u8>` allocation held behind an `Arc`: `bytes` is the initialized
content (the Vec's logical length), `cap` its allocated capacity, `strong`
the `Arc`'s strong count. -/
structure Buf where
  bytes : List Nat
  cap : Nat
  strong : Nat
deriving DecidableEq, Repr

/-- The heap of `Arc<Vec<u8>>` allocations: an `Arc` handle is an index, so
several holders can observably share one buffer. -/
abbrev Store := List Buf

/-- Dereference an `Arc` handle. -/
def Store.getB (st : Store) (i : Nat) : Buf := st.getD i ⟨[], 0, 0⟩

/-- `AccountSharedData` (`src/account.rs`): the shared variant whose payload
lives behind the reference-counted handle `dataRef`. -/
structure AccountSharedData where
  lamports : Nat
  dataRef : Nat
  owner : Pubkey
  executable : Bool
  rent_epoch : Nat
deriving DecidableEq, Repr

/-- The payload bytes a holder reads through `data()`. -/
def AccountSharedData.dataView (a : AccountSharedData) (st : Store) : List Nat :=
  (st.getB a.dataRef).bytes

/-- `AccountSharedData::capacity`. -/
def AccountSharedData.capacity (a : AccountSharedData) (st : Store) : Nat :=
  (st.getB a.dataRef).cap

/-- `AccountSharedData::is_shared`: `Arc::strong_count(&self.data) > 1`. -/
def AccountSharedData.is_shared (a : AccountSharedData) (st : Store) : Bool :=
  1 < (st.getB a.dataRef).strong

/-- `Vec::reserve(additional)`: a no-op when the spare capacity already
suffices, otherwise an amortized grow to at least `len + additional` (Rust's
raw-vec growth takes the doubled capacity when that is larger). -/
def vecReserveCap (cap len additional : Nat) : Nat :=
  if len + additional ≤ cap then cap else max (2 * cap) (len + additional)

/-- `AccountSharedData::set_data` (`src/account.rs`): `self.data = Arc::new(data)`
— the old handle is released (strong count drops) and a fresh buffer is
allocated for `data`. -/
def AccountSharedData.set_data (a : AccountSharedData) (st : Store)
    (data : List Nat) : Store × AccountSharedData :=
  let old := st.getB a.dataRef
  ((st.set a.dataRef { old with strong := old.strong - 1 }) ++
      [⟨data, data.length, 1⟩],
    { a with dataRef := st.length })

/-- `AccountSharedData::set_data_from_slice` (`src/account.rs`).  When
`Arc::get_mut` fails (buffer shared), clone the incoming slice into a fresh
buffer via `set_data`.  Otherwise reserve `new_len.saturating_sub(len)` more
capacity and overwrite in place (`set_len(0)`, non-overlapping copy of
`new_len` bytes, `set_len(new_len)`): afterwards the buffer holds exactly
`new_data`. -/
def AccountSharedData.set_data_from_slice (a : AccountSharedData) (st : Store)
    (new_data : List Nat) : Store × AccountSharedData :=
  let buf := st.getB a.dataRef
  if buf.strong ≠ 1 then
    a.set_data st new_data
  else
    let new_len := new_data.length
    let cap := vecReserveCap buf.cap buf.bytes.length (new_len - buf.bytes.length)
    (st.set a.dataRef ⟨new_data, cap, 1⟩, a)

/-- `impl From<Account> for AccountSharedData` (`src/account.rs`):
`Arc::new(other.data)` allocates a fresh, uniquely-held buffer. -/
def accountToShared (st : Store) (a : Account) : Store × AccountSharedData :=
  (st ++ [⟨a.data, a.data.length, 1⟩],
    ⟨a.lamports, st.length, a.owner, a.executable, a.rent_epoch⟩)

/-- `impl From<AccountSharedData> for Account` (`src/account.rs`):
`Arc::make_mut` reuses the buffer when uniquely held and clones it otherwise;
`mem::take` then moves the payload out, leaving an empty `Vec` behind. -/
def sharedToAccount (st : Store) (a : AccountSharedData) : Store × Account :=
  let buf := st.getB a.dataRef
  if buf.strong = 1 then
    (st.set a.dataRef ⟨[], 0, 1⟩,
      ⟨a.lamports, buf.bytes, a.owner, a.executable, a.rent_epoch⟩)
  else
    ((st.set a.dataRef { buf with strong := buf.strong - 1 }) ++ [⟨[], 0, 1⟩],
      ⟨a.lamports, buf.bytes, a.owner, a.executable, a.rent_epoch⟩)

theorem getB_snoc_length (st : Store) (y : Buf) :
    Store.getB (st ++ [y]) st.length = y := by
  simp [Store.getB, List.getD_eq_getElem?_getD, List.getElem?_append_right]

theorem getB_set_self (st : Store) (i : Nat) (b : Buf) (h : i < st.length) :
    Store.getB (st.set i b) i = b := by
  simp [Store.getB, List.getD_eq_getElem?_getD, List.getElem?_set_self, h]

theorem getB_set_ne (st : Store) (i j : Nat) (b : Buf) (h : i ≠ j) :
    Store.getB (st.set i b) j = Store.getB st j := by
  simp [Store.getB, List.getD_eq_getElem?_getD, List.getElem?_set_ne, h]

theorem getB_append_left (st : Store) (y : Buf) (j : Nat) (h : j < st.length) :
    Store.getB (st ++ [y]) j = Store.getB st j := by
  simp [Store.getB, List.getD_eq_getElem?_getD, List.getElem?_append_left, h]

end Twine

namespace Twine

/-- C4: after `set_data_from_slice(d)` the payload is byte-for-byte `d` (so
its logical length is `d.len()`), and when the buffer is uniquely held
(`Arc::get_mut` succeeds) and `d.len()` fits in the current capacity, the
buffer is not reallocated: capacity before equals capacity after. -/
theorem set_data_from_slice_spec (st : Store) (a : AccountSharedData) (d : List Nat)
    (href : a.dataRef < st.length)
    (hwf : (st.getB a.dataRef).bytes.length ≤ (st.getB a.dataRef).cap) :
    (a.set_data_from_slice st d).2.dataView (a.set_data_from_slice st d).1 = d ∧
    ((a.set_data_from_slice st d).2.dataView (a.set_data_from_slice st d).1).length
      = d.length ∧
    ((st.getB a.dataRef).strong = 1 → d.length ≤ a.capacity st →
      (a.set_data_from_slice st d).2.capacity (a.set_data_from_slice st d).1 =
        a.capacity st) := by
  by_cases hs : (st.getB a.dataRef).strong = 1
  · have hexp : a.set_data_from_slice st d =
        (st.set a.dataRef ⟨d, vecReserveCap (st.getB a.dataRef).cap
          (st.getB a.dataRef).bytes.length
          (d.length - (st.getB a.dataRef).bytes.length), 1⟩, a) := by
      simp [AccountSharedData.set_data_from_slice, hs]
    rw [hexp]
    refine ⟨?_, ?_, ?_⟩
    · simp [AccountSharedData.dataView, getB_set_self _ _ _ href]
    · simp [AccountSharedData.dataView, getB_set_self _ _ _ href]
    · intro _ hfit
      have hle : (st.getB a.dataRef).bytes.length +
          (d.length - (st.getB a.dataRef).bytes.length) ≤
            (st.getB a.dataRef).cap := by
        unfold AccountSharedData.capacity at hfit
        omega
      simp [AccountSharedData.capacity, getB_set_self _ _ _ href, vecReserveCap, hle]
  · have hexp : a.set_data_from_slice st d =
        ((st.set a.dataRef
            { st.getB a.dataRef with strong := (st.getB a.dataRef).strong - 1 }) ++
          [⟨d, d.length, 1⟩], { a with dataRef := st.length }) := by
      simp [AccountSharedData.set_data_from_slice, AccountSharedData.set_data, hs]
    rw [hexp]
    have hfresh := getB_snoc_length
      (st.set a.dataRef
        { st.getB a.dataRef with strong := (st.getB a.dataRef).strong - 1 })
      ⟨d, d.length, 1⟩
    rw [List.length_set] at hfresh
    exact ⟨by simp [AccountSharedData.dataView, hfresh],
      by simp [AccountSharedData.dataView, hfresh],
      fun h _ => absurd h hs⟩

/-- Concrete instance of `set_data_from_slice_spec`: a uniquely held 3-byte
buffer of capacity 8, overwritten with 5 bytes, keeps capacity 8. -/
theorem set_data_from_slice_spec_witness :
    ((AccountSharedData.mk 1 0 ⟨List.replicate 32 0⟩ false 0).set_data_from_slice
        [⟨[1, 2, 3], 8, 1⟩] [4, 5, 6, 7, 8]).2.dataView
      ((AccountSharedData.mk 1 0 ⟨List.replicate 32 0⟩ false 0).set_data_from_slice
        [⟨[1, 2, 3], 8, 1⟩] [4, 5, 6, 7, 8]).1 = [4, 5, 6, 7, 8] ∧
    (((AccountSharedData.mk 1 0 ⟨List.replicate 32 0⟩ false 0).set_data_from_slice
        [⟨[1, 2, 3], 8, 1⟩] [4, 5, 6, 7, 8]).2.dataView
      ((AccountSharedData.mk 1 0 ⟨List.replicate 32 0⟩ false 0).set_data_from_slice
        [⟨[1, 2, 3], 8, 1⟩] [4, 5, 6, 7, 8]).1).length = 5 ∧
    ((Store.getB [⟨[1, 2, 3], 8, 1⟩] 0).strong = 1 →
      5 ≤ (AccountSharedData.mk 1 0 ⟨List.replicate 32 0⟩ false 0).capacity
        [⟨[1, 2, 3], 8, 1⟩] →
      ((AccountSharedData.mk 1 0 ⟨List.replicate 32 0⟩ false 0).set_data_from_slice
        [⟨[1, 2, 3], 8, 1⟩] [4, 5, 6, 7, 8]).2.capacity
        ((AccountSharedData.mk 1 0 ⟨List.replicate 32 0⟩ false 0).set_data_from_slice
          [⟨[1, 2, 3], 8, 1⟩] [4, 5, 6, 7, 8]).1 =
        (AccountSharedData.mk 1 0 ⟨List.replicate 32 0⟩ false 0).capacity
          [⟨[1, 2, 3], 8, 1⟩]) :=
  set_data_from_slice_spec [⟨[1, 2, 3], 8, 1⟩]
    (AccountSharedData.mk 1 0 ⟨List.replicate 32 0⟩ false 0) [4, 5, 6, 7, 8]
    (by decide) (by decide)

/-- C5: when the payload buffer is shared (strong count > 1),
`set_data_from_slice` swaps in a freshly allocated buffer holding the new
content, and every pre-existing buffer keeps its bytes, so any other holder
(whose record, being a separate value, is untouched by the call) still reads
exactly the payload it read before. -/
theorem set_data_from_slice_shared_frame (st : Store) (a : AccountSharedData)
    (d : List Nat) (href : a.dataRef < st.length) (hsh : a.is_shared st = true) :
    (a.set_data_from_slice st d).2.dataRef ≠ a.dataRef ∧
    (a.set_data_from_slice st d).2 = { a with dataRef := st.length } ∧
    (a.set_data_from_slice st d).2.dataView (a.set_data_from_slice st d).1 = d ∧
    (∀ b : AccountSharedData, b.dataRef < st.length →
      b.dataView (a.set_data_from_slice st d).1 = b.dataView st) := by
  have hgt : 1 < (st.getB a.dataRef).strong := by
    simpa [AccountSharedData.is_shared] using hsh
  have hs : (st.getB a.dataRef).strong ≠ 1 := by omega
  have hexp : a.set_data_from_slice st d =
      ((st.set a.dataRef
          { st.getB a.dataRef with strong := (st.getB a.dataRef).strong - 1 }) ++
        [⟨d, d.length, 1⟩], { a with dataRef := st.length }) := by
    simp [AccountSharedData.set_data_from_slice, AccountSharedData.set_data, hs]
  rw [hexp]
  have hfresh := getB_snoc_length
    (st.set a.dataRef
      { st.getB a.dataRef with strong := (st.getB a.dataRef).strong - 1 })
    ⟨d, d.length, 1⟩
  rw [List.length_set] at hfresh
  refine ⟨Nat.ne_of_gt href, rfl, by simp [AccountSharedData.dataView, hfresh], ?_⟩
  intro b hb
  have hb' : b.dataRef <
      (st.set a.dataRef
        { st.getB a.dataRef with strong := (st.getB a.dataRef).strong - 1 }).length := by
    simpa using hb
  unfold AccountSharedData.dataView
  rw [getB_append_left _ _ _ hb']
  by_cases hba : a.dataRef = b.dataRef
  · rw [← hba, getB_set_self _ _ _ href]
  · rw [getB_set_ne _ _ _ _ hba]

/-- Concrete instance of `set_data_from_slice_shared_frame`: two holders
share buffer 0; after the caller replaces its payload, the other holder still
reads `[1, 2, 3]`. -/
theorem set_data_from_slice_shared_frame_witness :
    ((AccountSharedData.mk 1 0 ⟨List.replicate 32 0⟩ false 0).set_data_from_slice
        [⟨[1, 2, 3], 3, 2⟩] [9, 9]).2.dataRef ≠ 0 ∧
    ((AccountSharedData.mk 1 0 ⟨List.replicate 32 0⟩ false 0).set_data_from_slice
        [⟨[1, 2, 3], 3, 2⟩] [9, 9]).2 =
      { AccountSharedData.mk 1 0 ⟨List.replicate 32 0⟩ false 0 with dataRef := 1 } ∧
    ((AccountSharedData.mk 1 0 ⟨List.replicate 32 0⟩ false 0).set_data_from_slice
        [⟨[1, 2, 3], 3, 2⟩] [9, 9]).2.dataView
      ((AccountSharedData.mk 1 0 ⟨List.replicate 32 0⟩ false 0).set_data_from_slice
        [⟨[1, 2, 3], 3, 2⟩] [9, 9]).1 = [9, 9] ∧
    (∀ b : AccountSharedData, b.dataRef < 1 →
      b.dataView ((AccountSharedData.mk 1 0 ⟨List.replicate 32 0⟩ false 0).set_data_from_slice
        [⟨[1, 2, 3], 3, 2⟩] [9, 9]).1 = b.dataView [⟨[1, 2, 3], 3, 2⟩]) :=
  set_data_from_slice_shared_frame [⟨[1, 2, 3], 3, 2⟩]
    (AccountSharedData.mk 1 0 ⟨List.replicate 32 0⟩ false 0) [9, 9]
    (by decide) (by decide)

/-- C6: converting an `Account` into an `AccountSharedData` and back yields a
record equal to the original in all five fields (payload byte-for-byte): the
fresh `Arc` is uniquely held, so the reverse conversion takes the payload by
value. -/
theorem account_shared_roundtrip (st : Store) (a : Account) :
    (sharedToAccount (accountToShared st a).1 (accountToShared st a).2).2 = a := by
  have h := getB_snoc_length st ⟨a.data, a.data.length, 1⟩
  simp [accountToShared, sharedToAccount, h]

end Twine

namespace Twine

/-- `u64::MAX`. -/
def u64Max : Nat := 2 ^ 64 - 1

/-- `u64::checked_add` on `Nat` representatives of `u64` values. -/
def u64CheckedAdd (x y : Nat) : Option Nat :=
  if x + y ≤ u64Max then some (x + y) else none

/-- `u64::checked_sub` on `Nat` representatives of `u64` values. -/
def u64CheckedSub (x y : Nat) : Option Nat :=
  if y ≤ x then some (x - y) else none

/-- `u64::saturating_add`. -/
def u64SaturatingAdd (x y : Nat) : Nat := min (x + y) u64Max

/-- `u64::saturating_sub` (truncated `Nat` subtraction saturates at 0). -/
def u64SaturatingSub (x y : Nat) : Nat := x - y

/-- `LamportsError` (`src/lamports.rs`). -/
inductive LamportsError where
  | ArithmeticUnderflow
  | ArithmeticOverflow
deriving DecidableEq, Repr

/-- `WritableAccount::set_lamports` for `AccountSharedData` (`src/account.rs`). -/
def AccountSharedData.set_lamports (a : AccountSharedData) (lamports : Nat) :
    AccountSharedData :=
  { a with lamports := lamports }

/-- `WritableAccount::checked_add_lamports` (default method, `src/account.rs`):
`self.set_lamports(self.lamports().checked_add(lamports).ok_or(ArithmeticOverflow)?)`;
the early return on `None` leaves the account untouched. -/
def AccountSharedData.checked_add_lamports (a : AccountSharedData) (lamports : Nat) :
    AccountSharedData × Except LamportsError Unit :=
  match u64CheckedAdd a.lamports lamports with
  | some v => (a.set_lamports v, Except.ok ())
  | none => (a, Except.error LamportsError.ArithmeticOverflow)

/-- `WritableAccount::checked_sub_lamports` (default method, `src/account.rs`). -/
def AccountSharedData.checked_sub_lamports (a : AccountSharedData) (lamports : Nat) :
    AccountSharedData × Except LamportsError Unit :=
  match u64CheckedSub a.lamports lamports with
  | some v => (a.set_lamports v, Except.ok ())
  | none => (a, Except.error LamportsError.ArithmeticUnderflow)

/-- `WritableAccount::saturating_add_lamports` (default method). -/
def AccountSharedData.saturating_add_lamports (a : AccountSharedData)
    (lamports : Nat) : AccountSharedData :=
  a.set_lamports (u64SaturatingAdd a.lamports lamports)

/-- `WritableAccount::saturating_sub_lamports` (default method). -/
def AccountSharedData.saturating_sub_lamports (a : AccountSharedData)
    (lamports : Nat) : AccountSharedData :=
  a.set_lamports (u64SaturatingSub a.lamports lamports)

/-- C7: `checked_add_lamports` errors with `ArithmeticOverflow` exactly when
the `u64` sum overflows, `checked_sub_lamports` with the distinct
`ArithmeticUnderflow` exactly when the subtrahend exceeds the balance; on
error the account is unchanged, on success the balance is the exact
sum/difference; the saturating variants are total and clamp to `u64::MAX`
and 0. -/
theorem lamports_arithmetic_spec (a : AccountSharedData) (n : Nat)
    (ha : a.lamports ≤ u64Max) (hn : n ≤ u64Max) :
    (u64Max < a.lamports + n →
      a.checked_add_lamports n = (a, Except.error LamportsError.ArithmeticOverflow)) ∧
    (a.lamports + n ≤ u64Max →
      a.checked_add_lamports n = (a.set_lamports (a.lamports + n), Except.ok ())) ∧
    (a.lamports < n →
      a.checked_sub_lamports n = (a, Except.error LamportsError.ArithmeticUnderflow)) ∧
    (n ≤ a.lamports →
      a.checked_sub_lamports n = (a.set_lamports (a.lamports - n), Except.ok ())) ∧
    LamportsError.ArithmeticOverflow ≠ LamportsError.ArithmeticUnderflow ∧
    a.saturating_add_lamports n = a.set_lamports (min (a.lamports + n) u64Max) ∧
    a.saturating_sub_lamports n = a.set_lamports (a.lamports - n) := by
  refine ⟨?_, ?_, ?_, ?_, by decide, rfl, rfl⟩
  · intro h
    simp [AccountSharedData.checked_add_lamports, u64CheckedAdd, Nat.not_le.mpr h]
  · intro h
    simp [AccountSharedData.checked_add_lamports, u64CheckedAdd, h]
  · intro h
    simp [AccountSharedData.checked_sub_lamports, u64CheckedSub, Nat.not_le.mpr h]
  · intro h
    simp [AccountSharedData.checked_sub_lamports, u64CheckedSub, h]

/-- Concrete instance of `lamports_arithmetic_spec` at balance 10, amount 3. -/
theorem lamports_arithmetic_spec_witness :
    (u64Max < 10 + 3 →
      (AccountSharedData.mk 10 0 ⟨List.replicate 32 0⟩ false 0).checked_add_lamports 3 =
        (AccountSharedData.mk 10 0 ⟨List.replicate 32 0⟩ false 0,
          Except.error LamportsError.ArithmeticOverflow)) ∧
    (10 + 3 ≤ u64Max →
      (AccountSharedData.mk 10 0 ⟨List.replicate 32 0⟩ false 0).checked_add_lamports 3 =
        ((AccountSharedData.mk 10 0 ⟨List.replicate 32 0⟩ false 0).set_lamports (10 + 3),
          Except.ok ())) ∧
    (10 < 3 →
      (AccountSharedData.mk 10 0 ⟨List.replicate 32 0⟩ false 0).checked_sub_lamports 3 =
        (AccountSharedData.mk 10 0 ⟨List.replicate 32 0⟩ false 0,
          Except.error LamportsError.ArithmeticUnderflow)) ∧
    (3 ≤ 10 →
      (AccountSharedData.mk 10 0 ⟨List.replicate 32 0⟩ false 0).checked_sub_lamports 3 =
        ((AccountSharedData.mk 10 0 ⟨List.replicate 32 0⟩ false 0).set_lamports (10 - 3),
          Except.ok ())) ∧
    LamportsError.ArithmeticOverflow ≠ LamportsError.ArithmeticUnderflow ∧
    (AccountSharedData.mk 10 0 ⟨List.replicate 32 0⟩ false 0).saturating_add_lamports 3 =
      (AccountSharedData.mk 10 0 ⟨List.replicate 32 0⟩ false 0).set_lamports
        (min (10 + 3) u64Max) ∧
    (AccountSharedData.mk 10 0 ⟨List.replicate 32 0⟩ false 0).saturating_sub_lamports 3 =
      (AccountSharedData.mk 10 0 ⟨List.replicate 32 0⟩ false 0).set_lamports (10 - 3) :=
  lamports_arithmetic_spec (AccountSharedData.mk 10 0 ⟨List.replicate 32 0⟩ false 0) 3
    (by decide) (by decide)

end Twine

namespace Twine

/-- Modelled from the spec: `bincode::ErrorKind` of the serialization
wrapper used by `shared_serialize_data` (the `bincode` crate is an external
collaborator).  Only the size-limit variant and a representative other
variant are modelled. -/
inductive BincodeError where
  | SizeLimit
  | Custom
deriving DecidableEq, Repr

/-- `shared_serialize_data` (`src/account.rs`): returns
`ErrorKind::SizeLimit` when `serialized_size(state)` exceeds the payload
length, before any byte of the payload is touched; otherwise
`serialize_into` writes the serialized bytes over the front of the existing
payload slice, leaving the tail as it was.  `bincode` serialization of a
value is modelled by the abstract total encoding `ser`. -/
def shared_serialize_data {S : Type} (ser : S → List Nat) (account : Account)
    (state : S) : Account × Except BincodeError Unit :=
  if account.data.length < (ser state).length then
    (account, Except.error BincodeError.SizeLimit)
  else
    ({ account with data := ser state ++ account.data.drop (ser state).length },
      Except.ok ())

/-- `Account::serialize_data` (`src/account.rs`), a thin wrapper. -/
def Account.serialize_data {S : Type} (a : Account) (ser : S → List Nat)
    (state : S) : Account × Except BincodeError Unit :=
  shared_serialize_data ser a state

/-- C9: `serialize_data` returns the size-limit error exactly when the
serialized size exceeds the current payload length, and then the payload is
entirely unchanged (no partial write); when it fits, the serialized bytes are
written into the existing payload, whose length is preserved. -/
theorem serialize_data_size_limit {S : Type} (ser : S → List Nat) (a : Account)
    (s : S) :
    (a.data.length < (ser s).length →
      shared_serialize_data ser a s = (a, Except.error BincodeError.SizeLimit)) ∧
    ((ser s).length ≤ a.data.length →
      shared_serialize_data ser a s =
        ({ a with data := ser s ++ a.data.drop (ser s).length }, Except.ok ()) ∧
      (shared_serialize_data ser a s).1.data.length = a.data.length ∧
      (shared_serialize_data ser a s).1.data.take (ser s).length = ser s) := by
  by_cases h : a.data.length < (ser s).length
  · refine ⟨fun _ => by simp [shared_serialize_data, h], fun hle => absurd h (by omega)⟩
  · push_neg at h
    refine ⟨fun hlt => absurd hlt (by omega), fun _ => ⟨?_, ?_, ?_⟩⟩
    · simp [shared_serialize_data, Nat.not_lt.mpr h]
    · simp [shared_serialize_data, Nat.not_lt.mpr h]
      omega
    · simp [shared_serialize_data, Nat.not_lt.mpr h, List.take_left']

/-- Concrete instance of `serialize_data_size_limit`: a 2-byte encoding into
a 3-byte payload fits and writes `[7, 7]` over the first two bytes. -/
theorem serialize_data_size_limit_witness :
    (((Account.mk 1 [0, 0, 0] ⟨List.replicate 32 0⟩ false 0).data.length <
        ((fun x => [x, x]) (7 : Nat)).length →
      shared_serialize_data (fun x => [x, x])
          (Account.mk 1 [0, 0, 0] ⟨List.replicate 32 0⟩ false 0) 7 =
        (Account.mk 1 [0, 0, 0] ⟨List.replicate 32 0⟩ false 0,
          Except.error BincodeError.SizeLimit))) ∧
    (((fun x => [x, x]) (7 : Nat)).length ≤
        (Account.mk 1 [0, 0, 0] ⟨List.replicate 32 0⟩ false 0).data.length →
      shared_serialize_data (fun x => [x, x])
          (Account.mk 1 [0, 0, 0] ⟨List.replicate 32 0⟩ false 0) 7 =
        ({ Account.mk 1 [0, 0, 0] ⟨List.replicate 32 0⟩ false 0 with
            data := (fun x => [x, x]) (7 : Nat) ++
              (Account.mk 1 [0, 0, 0] ⟨List.replicate 32 0⟩ false 0).data.drop
                ((fun x => [x, x]) (7 : Nat)).length }, Except.ok ()) ∧
      (shared_serialize_data (fun x => [x, x])
          (Account.mk 1 [0, 0, 0] ⟨List.replicate 32 0⟩ false 0) 7).1.data.length =
        (Account.mk 1 [0, 0, 0] ⟨List.replicate 32 0⟩ false 0).data.length ∧
      (shared_serialize_data (fun x => [x, x])
          (Account.mk 1 [0, 0, 0] ⟨List.replicate 32 0⟩ false 0) 7).1.data.take
        ((fun x => [x, x]) (7 : Nat)).length = (fun x => [x, x]) (7 : Nat)) :=
  serialize_data_size_limit (fun x => [x, x])
    (Account.mk 1 [0, 0, 0] ⟨List.replicate 32 0⟩ false 0) 7

/-- Modelled from the spec: `InstructionError` (`src/instruction.rs` is not
among the sources; the spec treats instruction error codes as an opaque
taxonomy).  Variants follow the real Solana enum; only those relevant here
are included. -/
inductive InstructionError where
  | GenericError
  | InvalidArgument
  | ArithmeticOverflow
deriving DecidableEq, Repr

/-- `impl From<LamportsError> for InstructionError` (`src/lamports.rs`): both
variants map to `InstructionError::ArithmeticOverflow`. -/
def lamportsToInstructionError : LamportsError → InstructionError
  | LamportsError.ArithmeticOverflow => InstructionError.ArithmeticOverflow
  | LamportsError.ArithmeticUnderflow => InstructionError.ArithmeticOverflow

/-- C10: the conversion maps both `LamportsError` variants to the single
value `InstructionError::ArithmeticOverflow`, so the overflow/underflow
distinction is lost at this boundary. -/
theorem lamports_error_conversion_collapses :
    (∀ e : LamportsError,
      lamportsToInstructionError e = InstructionError.ArithmeticOverflow) ∧
    lamportsToInstructionError LamportsError.ArithmeticUnderflow =
      lamportsToInstructionError LamportsError.ArithmeticOverflow :=
  ⟨fun e => by cases e <;> rfl, rfl⟩

end Twine
